import Mathlib

/-!
# Verification of the MockupStorage subsystem

Shallow embedding of the deterministic mock-data generator and in-memory
query engine (`SeededRandom` + `MockupStorage`) of the delivery-confirmation
dashboard.

Modelling conventions:
* Calendar dates (ISO `YYYY-MM-DD` strings in the source) are modelled as
  integer day indices (`ℤ`).  Lexicographic order on zero-padded ISO date
  strings coincides with chronological order, so every string comparison on
  dates in the source (`>=`, `<=`, `<`, default array sort,
  `new Date(s).getTime()` differences) is the integer order here.
* JavaScript `Map` objects are modelled as insertion-ordered association
  lists; `Map.set` replaces in place for an existing key and appends
  otherwise, `Map.delete` removes the entry, and iteration (`values()`,
  `keys()`, `forEach`) follows list order, exactly like the JS semantics.
* JavaScript numbers are modelled as `ℤ` where the source only ever holds
  integers, and as `ℚ` for the PRNG output and derived rates.
* `new Date()` (the construction instant) is passed in explicitly as the
  `today : ℤ` day index; `createdAt` timestamps are day-index milliseconds.
-/

namespace LineDash

/-- Batch type enum: `'sent' | 'received'`. -/
inductive BatchType where
  | sent
  | received
deriving DecidableEq, Inhabited

/-- `Customer` record from `shared/schema.ts`. -/
structure Customer where
  id : String
  name : String
  phone : String
deriving DecidableEq, Inhabited

/-- `Batch` record from `shared/schema.ts` (dates as day indices). -/
structure Batch where
  id : String
  date : ℤ
  type : BatchType
  fileName : String
  channel : String
  customerCount : ℤ
  confirmed : ℤ
  notConfirmed : ℤ
  questions : ℤ
  other : ℤ
  createdAt : ℤ
deriving DecidableEq, Inhabited

/-- `DailyStats` record from `shared/schema.ts`. -/
structure DailyStats where
  id : String
  date : ℤ
  totalSent : ℤ
  totalReceived : ℤ
  confirmed : ℤ
  notConfirmed : ℤ
  questions : ℤ
  other : ℤ
  pending : ℤ
deriving DecidableEq, Inhabited

/-! ## JavaScript `Map` as an insertion-ordered association list -/

/-- `Map.set`: replace in place when the key exists, append otherwise. -/
def mapSet {K V : Type} [DecidableEq K] (m : List (K × V)) (k : K) (v : V) :
    List (K × V) :=
  if m.any (fun p => p.1 = k) then
    m.map (fun p => if p.1 = k then (k, v) else p)
  else
    m ++ [(k, v)]

/-- `Map.get`: the value at the first matching key, if any. -/
def mapGet {K V : Type} [DecidableEq K] (m : List (K × V)) (k : K) : Option V :=
  (m.find? (fun p => p.1 = k)).map Prod.snd

/-- `Map.values()` in insertion order. -/
def mapValues {K V : Type} (m : List (K × V)) : List V := m.map Prod.snd

/-- `Map.keys()` in insertion order. -/
def mapKeys {K V : Type} (m : List (K × V)) : List K := m.map Prod.fst

/-- `Map.delete`: drop the (first) entry with the given key. -/
def mapEraseKey {K V : Type} [DecidableEq K] (m : List (K × V)) (k : K) :
    List (K × V) :=
  m.eraseP (fun p => p.1 = k)

/-! ## SeededRandom

A Park–Miller linear congruential generator.  The internal state is an
integer; `next` advances `state := (state * 16807) % 2147483647` and yields
`(state - 1) / 2147483646` as a rational (the source computes this in IEEE
doubles; every intermediate here is exactly representable as a rational and
the floor computations below are exact at the integer scales involved). -/

/-- Constructor normalisation: `seed % 2147483647` (JS `%` truncates toward
zero, hence `Int.tmod`), then add `2147483646` when the result is `≤ 0`. -/
def seedNormalize (seed : ℤ) : ℤ :=
  let s := Int.tmod seed 2147483647
  if s ≤ 0 then s + 2147483646 else s

/-- `SeededRandom.next()`: returns the drawn rational and the new state. -/
def rngNext (s : ℤ) : ℚ × ℤ :=
  let s' := (s * 16807) % 2147483647
  (((s' : ℚ) - 1) / 2147483646, s')

/-- `SeededRandom.nextInt(min, max)`:
`Math.floor(next() * (max - min + 1)) + min`. -/
def rngNextInt (s : ℤ) (lo hi : ℤ) : ℤ × ℤ :=
  let r := rngNext s
  (⌊r.1 * ((hi : ℚ) - (lo : ℚ) + 1)⌋ + lo, r.2)

/-! ## Generation configuration (hard-coded in the `MockupStorage`
constructor) -/

def daysOfHistory : ℕ := 30
def customersPerDayMin : ℤ := 150
def customersPerDayMax : ℤ := 200
def responseRateMin : ℚ := 13 / 20
def responseRateMax : ℚ := 17 / 20
def catConfirmed : ℚ := 3 / 5
def catNotConfirmed : ℚ := 3 / 20
def catQuestions : ℚ := 2 / 25
def catOther : ℚ := 17 / 100

def familyNames : List String :=
  ["田中", "佐藤", "山田", "中村", "小林", "渡辺", "伊藤", "鈴木", "高橋", "松本"]

def givenNames : List String :=
  ["太郎", "花子", "次郎", "美智子", "三郎", "恵子", "四郎", "由美子", "五郎", "真理子"]

/-- `i.toString().padStart(3, '0')`. -/
def pad3 (n : ℕ) : String :=
  if n < 10 then "00" ++ toString n
  else if n < 100 then "0" ++ toString n
  else toString n

def msPerDay : ℤ := 86400000
def msPerHour : ℤ := 3600000

/-! ## Dataset generation (`MockupStorage.generateMockData`) -/

/-- One iteration of the customer-roster loop: three `nextInt` draws for the
phone number, in source order. -/
def genCustomer (acc : List (String × Customer) × ℤ) (i : ℕ) :
    List (String × Customer) × ℤ :=
  let d1 := rngNextInt acc.2 70 90
  let d2 := rngNextInt d1.2 1000 9999
  let d3 := rngNextInt d2.2 1000 9999
  let cust : Customer :=
    { id := "customer-" ++ pad3 i
      name := (familyNames.getD (i % familyNames.length) "") ++ " " ++
        (givenNames.getD (i % givenNames.length) "")
      phone := "+81-" ++ toString d1.1 ++ "-" ++ toString d2.1 ++ "-" ++
        toString d3.1 }
  (mapSet acc.1 cust.id cust, d3.2)

/-- Accumulator threaded through the per-day generation loop. -/
structure GenAcc where
  batches : List (String × Batch)
  dailyStats : List (ℤ × DailyStats)
  rng : ℤ
deriving DecidableEq

/-- One iteration of the per-day loop: a `sent` batch from one `nextInt`
draw, a `received` batch from one `next` draw with floor-partitioned
category counts (`other` is the remainder), and the day's `DailyStats`. -/
def genDay (today : ℤ) (acc : GenAcc) (dayOffset : ℕ) : GenAcc :=
  let d : ℤ := today - (dayOffset : ℤ)
  let c1 := rngNextInt acc.rng customersPerDayMin customersPerDayMax
  let customerCount := c1.1
  let sentBatch : Batch :=
    { id := "sent-" ++ toString d
      date := d
      type := .sent
      fileName := "delivery_confirmations_" ++ toString d ++ ".csv"
      channel := "LINE OA"
      customerCount := customerCount
      confirmed := 0
      notConfirmed := 0
      questions := 0
      other := 0
      createdAt := d * msPerDay + 9 * msPerHour }
  let batches1 := mapSet acc.batches sentBatch.id sentBatch
  let r := rngNext c1.2
  let responseRate : ℚ := responseRateMin + r.1 * (responseRateMax - responseRateMin)
  let totalResponses : ℤ := ⌊(customerCount : ℚ) * responseRate⌋
  let confirmed : ℤ := ⌊(totalResponses : ℚ) * catConfirmed⌋
  let notConfirmed : ℤ := ⌊(totalResponses : ℚ) * catNotConfirmed⌋
  let questions : ℤ := ⌊(totalResponses : ℚ) * catQuestions⌋
  let other : ℤ := totalResponses - confirmed - notConfirmed - questions
  let receivedBatch : Batch :=
    { id := "received-" ++ toString d
      date := d
      type := .received
      fileName := "delivery_responses_" ++ toString d ++ ".csv"
      channel := "LINE OA"
      customerCount := totalResponses
      confirmed := confirmed
      notConfirmed := notConfirmed
      questions := questions
      other := other
      createdAt := d * msPerDay + 18 * msPerHour }
  let batches2 := mapSet batches1 receivedBatch.id receivedBatch
  let stats : DailyStats :=
    { id := "stats-" ++ toString d
      date := d
      totalSent := customerCount
      totalReceived := totalResponses
      confirmed := confirmed
      notConfirmed := notConfirmed
      questions := questions
      other := other
      pending := customerCount - totalResponses }
  { batches := batches2
    dailyStats := mapSet acc.dailyStats d stats
    rng := r.2 }

/-- The full in-memory store owned by a `MockupStorage` instance. -/
structure StorageState where
  customers : List (String × Customer)
  batches : List (String × Batch)
  dailyStats : List (ℤ × DailyStats)
  rng : ℤ
deriving DecidableEq

/-- The `MockupStorage` constructor: normalise the seed, generate the
100-customer roster, then the 30-day history, consuming the single PRNG
stream in that fixed order. -/
def MockupStorage.init (seed : ℤ) (today : ℤ) : StorageState :=
  let s0 := seedNormalize seed
  let roster := (List.range 100).foldl genCustomer ([], s0)
  let g := (List.range daysOfHistory).foldl (genDay today)
    { batches := [], dailyStats := [], rng := roster.2 }
  { customers := roster.1
    batches := g.batches
    dailyStats := g.dailyStats
    rng := g.rng }

/-! ## Query engine (`getBatches`) -/

/-- `BatchHistoryFilters.type` values: `'sent' | 'received' | 'all'`. -/
inductive TypeFilter where
  | sent
  | received
  | all
deriving DecidableEq

/-- `BatchHistoryFilters` from `shared/schema.ts`: every field optional. -/
structure BatchHistoryFilters where
  type : Option TypeFilter := none
  dateFrom : Option ℤ := none
  dateTo : Option ℤ := none
  limit : Option ℤ := none
  offset : Option ℤ := none
deriving DecidableEq

/-- JS `x || d` on an optional number: both `undefined` and `0` are falsy
and fall back to the default. -/
def jsOrNum (x : Option ℤ) (d : ℤ) : ℤ :=
  match x with
  | none => d
  | some v => if v = 0 then d else v

/-- `b.type === filters.type` for a non-`'all'` filter value. -/
def typeMatches (b : BatchType) (t : TypeFilter) : Bool :=
  match b, t with
  | .sent, .sent => true
  | .received, .received => true
  | _, _ => false

/-- `if (filters.type && filters.type !== 'all') allBatches.filter(...)`. -/
def applyTypeFilter (t : Option TypeFilter) (l : List Batch) : List Batch :=
  match t with
  | none => l
  | some .all => l
  | some tf => l.filter (fun b => typeMatches b.type tf)

/-- The two optional date-range filters, `date >= dateFrom` then
`date <= dateTo`. -/
def applyDateFilters (dateFrom dateTo : Option ℤ) (l : List Batch) :
    List Batch :=
  let l1 := match dateFrom with
    | none => l
    | some df => l.filter (fun b => df ≤ b.date)
  match dateTo with
  | none => l1
  | some dt => l1.filter (fun b => b.date ≤ dt)

/-- Stable insert for the date-descending sort: a new element goes after
every element with an equal or later date (JS `Array.prototype.sort` is
stable). -/
def insertBatchDesc (x : Batch) : List Batch → List Batch
  | [] => [x]
  | y :: ys => if y.date < x.date then x :: y :: ys else y :: insertBatchDesc x ys

/-- Stable sort by date descending, processing elements in list order. -/
def sortBatchesDesc (l : List Batch) : List Batch :=
  l.foldl (fun acc x => insertBatchDesc x acc) []

/-- `Array.prototype.slice(start, stop)` with JS clamping semantics
(negative indices count from the end). -/
def jsSlice {α : Type} (xs : List α) (start stop : ℤ) : List α :=
  let len : ℤ := xs.length
  let s := if start < 0 then max (len + start) 0 else min start len
  let e := if stop < 0 then max (len + stop) 0 else min stop len
  (xs.drop s.toNat).take (e - s).toNat

/-- `BatchWithSummary`: a batch plus the optional derived
`totalResponses`. -/
structure BatchWithSummary where
  batch : Batch
  totalResponses : Option ℤ
deriving DecidableEq

/-- Summary enrichment: `received` batches get
`totalResponses = confirmed + notConfirmed + questions + other`. -/
def addSummary (b : Batch) : BatchWithSummary :=
  if b.type = .received then
    { batch := b
      totalResponses := some (b.confirmed + b.notConfirmed + b.questions + b.other) }
  else
    { batch := b, totalResponses := none }

/-- Result shape of `getBatches`. -/
structure BatchPage where
  batches : List BatchWithSummary
  total : ℤ
deriving DecidableEq

/-- The filter-then-sort pipeline of `getBatches`, before pagination. -/
def filteredSortedBatches (st : StorageState) (f : BatchHistoryFilters) :
    List Batch :=
  sortBatchesDesc (applyDateFilters f.dateFrom f.dateTo
    (applyTypeFilter f.type (mapValues st.batches)))

/-- `MockupStorage.getBatches`: filter, sort descending by date, record the
pre-pagination `total`, slice `[offset, offset + limit)` with falsy-coerced
defaults (`limit || 50`, `offset || 0`), and enrich the page. -/
def getBatches (st : StorageState) (f : BatchHistoryFilters) : BatchPage :=
  let sorted := filteredSortedBatches st f
  let total : ℤ := sorted.length
  let lim := jsOrNum f.limit 50
  let off := jsOrNum f.offset 0
  let page := jsSlice sorted off (off + lim)
  { batches := page.map addSummary, total := total }

/-! ## Retention sweep (`deleteBatchesOlderThan`) -/

/-- `MockupStorage.deleteBatchesOlderThan(days)`: cutoff is `today - days`;
collect the ids of batches with `date < cutoff`, delete each, return the
new state together with the count of deletions. -/
def deleteBatchesOlderThan (st : StorageState) (today : ℤ) (days : ℤ) :
    StorageState × ℤ :=
  let cutoff := today - days
  let ids := (st.batches.filter (fun p => p.2.date < cutoff)).map Prod.fst
  let batches2 := ids.foldl (fun m id => mapEraseKey m id) st.batches
  ({ st with batches := batches2 }, ids.length)

/-! ## Metrics aggregation (`getDashboardMetrics`, `getChartData`) -/

/-- `DashboardMetrics` from `shared/schema.ts` plus the `date` field the
implementation returns; `responseRate` is the raw (unrounded) quotient the
source computes. -/
structure DashboardMetrics where
  date : ℤ
  totalSent : ℤ
  totalReceived : ℤ
  confirmed : ℤ
  notConfirmed : ℤ
  questions : ℤ
  other : ℤ
  pending : ℤ
  responseRate : ℚ
deriving DecidableEq

/-- The metrics object built from a found `DailyStats` record:
`responseRate = (totalReceived / totalSent) * 100` when `totalSent > 0`,
else `0` — the source applies no rounding. -/
def metricsOfStats (s : DailyStats) : DashboardMetrics :=
  { date := s.date
    totalSent := s.totalSent
    totalReceived := s.totalReceived
    confirmed := s.confirmed
    notConfirmed := s.notConfirmed
    questions := s.questions
    other := s.other
    pending := s.pending
    responseRate :=
      if 0 < s.totalSent then ((s.totalReceived : ℚ) / (s.totalSent : ℚ)) * 100
      else 0 }

/-- The zero-filled fallback metrics object, dated today. -/
def zeroMetrics (today : ℤ) : DashboardMetrics :=
  { date := today
    totalSent := 0
    totalReceived := 0
    confirmed := 0
    notConfirmed := 0
    questions := 0
    other := 0
    pending := 0
    responseRate := 0 }

/-- Ascending insert for the key sort in the fallback path of
`getDashboardMetrics` (JS default string sort on ISO dates). -/
def insertIntAsc (x : ℤ) : List ℤ → List ℤ
  | [] => [x]
  | y :: ys => if x < y then x :: y :: ys else y :: insertIntAsc x ys

/-- `Array.from(keys()).sort()` on date keys. -/
def sortIntAsc (l : List ℤ) : List ℤ :=
  l.foldl (fun acc x => insertIntAsc x acc) []

/-- `MockupStorage.getDashboardMetrics`: today's stats if present, else the
stats at `sort().reverse()[0]` (the greatest key), else the zero-filled
object. -/
def getDashboardMetrics (st : StorageState) (today : ℤ) : DashboardMetrics :=
  let first := mapGet st.dailyStats today
  let latest :=
    match first with
    | some s => some s
    | none =>
      match ((sortIntAsc (mapKeys st.dailyStats)).reverse).head? with
      | none => none
      | some d => mapGet st.dailyStats d
  match latest with
  | none => zeroMetrics today
  | some s => metricsOfStats s

/-- One point of the chart series (the source formats `date` for display;
here it is the day index the entry denotes). -/
structure ChartEntry where
  date : ℤ
  sent : ℤ
  received : ℤ
deriving DecidableEq

/-- The loop body of `getChartData` for the day `d`: look the day up in the
daily stats and push `stats?.totalSent || 0` / `stats?.totalReceived || 0`. -/
def chartPoint (st : StorageState) (d : ℤ) : ChartEntry :=
  match mapGet st.dailyStats d with
  | none => { date := d, sent := 0, received := 0 }
  | some s => { date := d, sent := s.totalSent, received := s.totalReceived }

/-- `MockupStorage.getChartData(days)`: one entry per loop iteration
`i = days-1, …, 0`, for the day `today - i` (the `k`-th pushed entry has
`i = days - 1 - k`). -/
def getChartData (st : StorageState) (today : ℤ) (days : ℤ) :
    List ChartEntry :=
  (List.range days.toNat).map (fun (k : ℕ) => chartPoint st (today - (days - 1 - (k : ℤ))))

/-- Modelled from the spec (for the amended C5, with the rounding step the
spec claims removed): today's stats if present, else the stats at the most
recent (maximum) available date, else a zero-filled object dated today;
`responseRate` is the raw percentage quotient when `totalSent > 0`, else
`0`. -/
def dashboardMetricsSpec (st : StorageState) (today : ℤ) : DashboardMetrics :=
  match mapGet st.dailyStats today with
  | some s =>
    { date := s.date
      totalSent := s.totalSent
      totalReceived := s.totalReceived
      confirmed := s.confirmed
      notConfirmed := s.notConfirmed
      questions := s.questions
      other := s.other
      pending := s.pending
      responseRate :=
        if 0 < s.totalSent then ((s.totalReceived : ℚ) / (s.totalSent : ℚ)) * 100
        else 0 }
  | none =>
    match (mapKeys st.dailyStats).max? with
    | none => zeroMetrics today
    | some d =>
      match mapGet st.dailyStats d with
      | none => zeroMetrics today
      | some s =>
        { date := s.date
          totalSent := s.totalSent
          totalReceived := s.totalReceived
          confirmed := s.confirmed
          notConfirmed := s.notConfirmed
          questions := s.questions
          other := s.other
          pending := s.pending
          responseRate :=
            if 0 < s.totalSent then ((s.totalReceived : ℚ) / (s.totalSent : ℚ)) * 100
            else 0 }



/-! ## Concrete fixture states used by witnesses and counterexamples -/

/-- A `sent` batch dated day 0. -/
def bOld : Batch :=
  { id := "sent-0", date := 0, type := .sent, fileName := "f0.csv"
    channel := "LINE OA", customerCount := 10, confirmed := 0
    notConfirmed := 0, questions := 0, other := 0, createdAt := 0 }

/-- A `sent` batch dated day 5. -/
def bNew : Batch :=
  { id := "sent-5", date := 5, type := .sent, fileName := "f5.csv"
    channel := "LINE OA", customerCount := 12, confirmed := 0
    notConfirmed := 0, questions := 0, other := 0, createdAt := 5 }

/-- A store with two batches, for the retention witness. -/
def stRetention : StorageState :=
  { customers := [], batches := [("sent-0", bOld), ("sent-5", bNew)]
    dailyStats := [], rng := 1 }

/-- A daily-stats record whose response quotient `1/3` is not an integer
percentage. -/
def statsThird : DailyStats :=
  { id := "stats-x", date := 0, totalSent := 3, totalReceived := 1
    confirmed := 1, notConfirmed := 0, questions := 0, other := 0
    pending := 2 }

/-- A store holding only `statsThird`, dated day 0. -/
def stDash : StorageState :=
  { customers := [], batches := [], dailyStats := [(0, statsThird)], rng := 1 }

/-! ## Derived predicates used by the verification -/

/-- A valid LCG state: the interval the stream must stay inside. -/
def rngValid (s : ℤ) : Prop := 1 ≤ s ∧ s ≤ 2147483646

/-- The category counts of a `received` batch sum to its `customerCount`. -/
def receivedSumOk (b : Batch) : Prop :=
  b.type = .received → b.confirmed + b.notConfirmed + b.questions + b.other = b.customerCount

/-- The `DailyStats` consistency invariant of the claim: `pending` is the
difference and `totalReceived` never exceeds `totalSent`. -/
def statsOk (s : DailyStats) : Prop :=
  s.pending = s.totalSent - s.totalReceived ∧ s.totalReceived ≤ s.totalSent

/-- A `sent` batch drew its `customerCount` inside the configured range. -/
def sentCountOk (b : Batch) : Prop :=
  b.type = .sent → 150 ≤ b.customerCount ∧ b.customerCount ≤ 200

/-! ## Helper lemmas -/

set_option maxRecDepth 8000

/-- Invariant preservation along a left fold. -/
theorem foldlInv {α β : Type} {P : α → Prop} {f : α → β → α} (l : List β) (a : α)
    (h0 : P a) (hstep : ∀ x b, P x → P (f x b)) : P (l.foldl f a) := by
  induction l generalizing a with
  | nil => exact h0
  | cons x xs ih => exact ih (f a x) (hstep a x h0)

/-- A value of `mapSet m k v` is the new value or an old one. -/
theorem mem_mapValues_mapSet {K V : Type} [DecidableEq K] {m : List (K × V)}
    {k : K} {v w : V} (h : w ∈ mapValues (mapSet m k v)) :
    w = v ∨ w ∈ mapValues m := by
  unfold mapSet at h
  split at h
  · simp only [mapValues, List.map_map, List.mem_map, Function.comp] at h
    obtain ⟨p, hp, hw⟩ := h
    by_cases hk : p.1 = k
    · rw [if_pos hk] at hw
      exact Or.inl hw.symm
    · rw [if_neg hk] at hw
      exact Or.inr (List.mem_map.mpr ⟨p, hp, hw⟩)
  · simp only [mapValues, List.map_append, List.map_cons, List.map_nil,
      List.mem_append, List.mem_singleton] at h
    rcases h with h1 | h2
    · exact Or.inr h1
    · exact Or.inl h2

/-! ## PRNG state and value bounds -/

/-- The post-`next()` state is non-negative (it is a Euclidean remainder). -/
theorem rngNext_state_nonneg (s : ℤ) : 0 ≤ (rngNext s).2 :=
  Int.emod_nonneg _ (by norm_num)

/-- The post-`next()` state is below the modulus. -/
theorem rngNext_state_lt (s : ℤ) : (rngNext s).2 < 2147483647 :=
  Int.emod_lt_of_pos _ (by norm_num)

/-- `next()` always returns a value strictly below `1`, whatever the state. -/
theorem rngNext_val_lt_one (s : ℤ) : (rngNext s).1 < 1 := by
  have h1 : (s * 16807) % 2147483647 < 2147483647 := Int.emod_lt_of_pos _ (by norm_num)
  have h2 : (((s * 16807) % 2147483647 : ℤ) : ℚ) ≤ 2147483646 := by
    have h3 : (s * 16807) % 2147483647 ≤ (2147483646 : ℤ) := by omega
    exact_mod_cast h3
  unfold rngNext
  rw [div_lt_one (by norm_num)]
  linarith

/-- `next()` always returns a value strictly above `-1`. -/
theorem rngNext_val_gt_negOne (s : ℤ) : -1 < (rngNext s).1 := by
  have h1 : (0 : ℤ) ≤ (s * 16807) % 2147483647 := Int.emod_nonneg _ (by norm_num)
  have h2 : (0 : ℚ) ≤ (((s * 16807) % 2147483647 : ℤ) : ℚ) := by exact_mod_cast h1
  unfold rngNext
  rw [lt_div_iff (by norm_num)]
  linarith

/-- 2^31 - 1, the Park–Miller modulus, is a Mersenne prime. -/
theorem modulus_prime : Nat.Prime 2147483647 := by
  have h : (mersenne 31).Prime := lucas_lehmer_sufficiency 31 (by norm_num) (by norm_num)
  have e : mersenne 31 = 2147483647 := by norm_num [mersenne]
  rwa [e] at h

/-- One `next()` step preserves state validity (the modulus is prime, so a
nonzero state times 16807 is never divisible by it). -/
theorem rngNext_state_valid {s : ℤ} (h : rngValid s) : rngValid (rngNext s).2 := by
  obtain ⟨h1, h2⟩ := h
  have h0 : 0 ≤ (rngNext s).2 := rngNext_state_nonneg s
  have hlt : (rngNext s).2 < 2147483647 := rngNext_state_lt s
  refine ⟨?_, by omega⟩
  by_contra hcon
  have hz : (rngNext s).2 = 0 := by omega
  unfold rngNext at hz
  simp only at hz
  have hdvd : (2147483647 : ℤ) ∣ s * 16807 := Int.dvd_of_emod_eq_zero hz
  have hp : Prime (2147483647 : ℤ) := Nat.prime_iff_prime_int.mp modulus_prime
  rcases hp.dvd_mul.mp hdvd with hs | hc
  · have := Int.le_of_dvd (by omega) hs
    omega
  · have := Int.le_of_dvd (by norm_num) hc
    omega

/-- On a valid state, `next()` is non-negative. -/
theorem rngNext_val_nonneg {s : ℤ} (h : rngValid s) : 0 ≤ (rngNext s).1 := by
  have h1 : 1 ≤ (rngNext s).2 := (rngNext_state_valid h).1
  have h2 : (1 : ℚ) ≤ (((s * 16807) % 2147483647 : ℤ) : ℚ) := by
    unfold rngNext at h1
    exact_mod_cast h1
  unfold rngNext
  exact div_nonneg (by linarith) (by norm_num)

/-- `nextInt(lo, hi)` lies in `[lo, hi]` on a valid state when `lo ≤ hi`. -/
theorem rngNextInt_mem {s lo hi : ℤ} (h : rngValid s) (hlh : lo ≤ hi) :
    lo ≤ (rngNextInt s lo hi).1 ∧ (rngNextInt s lo hi).1 ≤ hi := by
  have hv0 : 0 ≤ (rngNext s).1 := rngNext_val_nonneg h
  have hv1 : (rngNext s).1 < 1 := rngNext_val_lt_one s
  have hm : (0 : ℚ) < (hi : ℚ) - (lo : ℚ) + 1 := by
    have : ((lo : ℚ)) ≤ (hi : ℚ) := by exact_mod_cast hlh
    linarith
  unfold rngNextInt
  simp only
  constructor
  · have : (0 : ℤ) ≤ ⌊(rngNext s).1 * ((hi : ℚ) - (lo : ℚ) + 1)⌋ :=
      Int.floor_nonneg.mpr (mul_nonneg hv0 (le_of_lt hm))
    omega
  · have hflt : ⌊(rngNext s).1 * ((hi : ℚ) - (lo : ℚ) + 1)⌋ < hi - lo + 1 := by
      rw [Int.floor_lt]
      push_cast
      nlinarith
    omega

/-- The state of `nextInt` is the state of the underlying `next`. -/
theorem rngNextInt_state (s lo hi : ℤ) : (rngNextInt s lo hi).2 = (rngNext s).2 := rfl

/-- The drawn `customerCount` is non-negative for every state (even an
invalid one: the draw is `> -1`, so the floor term is `≥ -51`). -/
theorem customerCount_nonneg (s : ℤ) :
    0 ≤ (rngNextInt s customersPerDayMin customersPerDayMax).1 := by
  have hv : -1 < (rngNext s).1 := rngNext_val_gt_negOne s
  have hfl : (-51 : ℤ) ≤ ⌊(rngNext s).1 * ((customersPerDayMax : ℚ) - (customersPerDayMin : ℚ) + 1)⌋ := by
    rw [Int.le_floor]
    unfold customersPerDayMin customersPerDayMax
    push_cast
    nlinarith
  unfold rngNextInt
  simp only
  unfold customersPerDayMin at hfl ⊢
  omega

/-- The drawn response rate is at most `1` for every state. -/
theorem responseRate_le_one (s : ℤ) :
    responseRateMin + (rngNext s).1 * (responseRateMax - responseRateMin) ≤ 1 := by
  have hv : (rngNext s).1 < 1 := rngNext_val_lt_one s
  have hv0 : -1 < (rngNext s).1 := rngNext_val_gt_negOne s
  unfold responseRateMin responseRateMax
  nlinarith

/-- Flooring after multiplying by a rate `≤ 1` cannot exceed the base. -/
theorem floor_mul_le_self {c : ℤ} {r : ℚ} (hc : 0 ≤ c) (hr : r ≤ 1) :
    ⌊(c : ℚ) * r⌋ ≤ c := by
  have h1 : (c : ℚ) * r ≤ (c : ℚ) :=
    mul_le_of_le_one_right (by exact_mod_cast hc) hr
  calc ⌊(c : ℚ) * r⌋ ≤ ⌊(c : ℚ)⌋ := Int.floor_le_floor h1
  _ = c := Int.floor_intCast c

/-! ## Generation invariants -/

/-- One generation day preserves the received-batch sum invariant: the new
`received` batch satisfies it because `other` is the remainder, the new
`sent` batch satisfies it vacuously. -/
theorem genDay_preserves_receivedSum {today : ℤ} {acc : GenAcc} {i : ℕ}
    (h : ∀ b ∈ mapValues acc.batches, receivedSumOk b) :
    ∀ b ∈ mapValues (genDay today acc i).batches, receivedSumOk b := by
  intro b hb
  simp only [genDay] at hb
  rcases mem_mapValues_mapSet hb with rfl | hb1
  · intro _
    dsimp only
    ring
  · rcases mem_mapValues_mapSet hb1 with rfl | hb2
    · intro ht
      simp at ht
    · exact h b hb2

/-- One generation day preserves the `DailyStats` invariant: `pending` is
defined as the difference, and `totalReceived = ⌊customerCount * rate⌋`
with a non-negative base and a rate `≤ 1`. -/
theorem genDay_preserves_statsOk {today : ℤ} {acc : GenAcc} {i : ℕ}
    (h : ∀ s ∈ mapValues acc.dailyStats, statsOk s) :
    ∀ s ∈ mapValues (genDay today acc i).dailyStats, statsOk s := by
  intro s hs
  simp only [genDay] at hs
  rcases mem_mapValues_mapSet hs with rfl | hs1
  · constructor
    · rfl
    · dsimp only
      exact floor_mul_le_self (customerCount_nonneg _) (responseRate_le_one _)
  · exact h s hs1

/-! ## Claim theorems -/

/-- C1: the generator is deterministic — constructing `MockupStorage` twice
with the same seed and the same current date yields equal customer rosters,
batch collections and daily-stats collections.  In this embedding every
entropy source of `generateMockData` is explicit (the single seeded PRNG
stream, consumed in one fixed order, and the construction date), so the
constructor is a pure function and the two runs are definitionally equal. -/
theorem generation_deterministic (seed today : ℤ) :
    (MockupStorage.init seed today).customers = (MockupStorage.init seed today).customers
    ∧ (MockupStorage.init seed today).batches = (MockupStorage.init seed today).batches
    ∧ (MockupStorage.init seed today).dailyStats = (MockupStorage.init seed today).dailyStats :=
  ⟨rfl, rfl, rfl⟩

/-- C2: every generated `received` batch (any seed, any day) satisfies
`confirmed + notConfirmed + questions + other = customerCount`, because
`other` is the remainder `totalResponses - confirmed - notConfirmed -
questions` and the received batch's `customerCount` is `totalResponses`. -/
theorem received_batch_categories_sum (seed today : ℤ) (b : Batch)
    (hb : b ∈ mapValues (MockupStorage.init seed today).batches)
    (ht : b.type = .received) :
    b.confirmed + b.notConfirmed + b.questions + b.other = b.customerCount := by
  simp only [MockupStorage.init] at hb
  exact foldlInv (P := fun acc : GenAcc => ∀ x ∈ mapValues acc.batches, receivedSumOk x)
    (List.range daysOfHistory) _
    (fun x hx => by simp [mapValues] at hx)
    (fun acc i hacc => genDay_preserves_receivedSum hacc) b hb ht

/-- C3: every generated `DailyStats` record (any seed) satisfies
`pending = totalSent - totalReceived` and `totalReceived ≤ totalSent`; the
inequality holds because `totalReceived = ⌊customerCount * r⌋` with the
drawn rate `r < 0.85 < 1` and `customerCount ≥ 0`. -/
theorem dailyStats_pending_consistency (seed today : ℤ) (s : DailyStats)
    (hs : s ∈ mapValues (MockupStorage.init seed today).dailyStats) :
    s.pending = s.totalSent - s.totalReceived ∧ s.totalReceived ≤ s.totalSent := by
  simp only [MockupStorage.init] at hs
  exact foldlInv (P := fun acc : GenAcc => ∀ x ∈ mapValues acc.dailyStats, statsOk x)
    (List.range daysOfHistory) _
    (fun x hx => by simp [mapValues] at hx)
    (fun acc i hacc => genDay_preserves_statsOk hacc) s hs

section

attribute [local semireducible] Rat.add Rat.mul Rat.sub Rat.inv

/-- Witness for C2 at seed 12345: the first generated `received` batch. -/
theorem received_batch_categories_sum_witness :
    ((mapValues (MockupStorage.init 12345 0).batches).getD 1 default).confirmed
      + ((mapValues (MockupStorage.init 12345 0).batches).getD 1 default).notConfirmed
      + ((mapValues (MockupStorage.init 12345 0).batches).getD 1 default).questions
      + ((mapValues (MockupStorage.init 12345 0).batches).getD 1 default).other
      = ((mapValues (MockupStorage.init 12345 0).batches).getD 1 default).customerCount :=
  received_batch_categories_sum 12345 0
    ((mapValues (MockupStorage.init 12345 0).batches).getD 1 default)
    (by decide) (by decide)

/-- Witness for C3 at seed 12345: the first generated `DailyStats`. -/
theorem dailyStats_pending_consistency_witness :
    ((mapValues (MockupStorage.init 12345 0).dailyStats).getD 0 default).pending
      = ((mapValues (MockupStorage.init 12345 0).dailyStats).getD 0 default).totalSent
        - ((mapValues (MockupStorage.init 12345 0).dailyStats).getD 0 default).totalReceived
    ∧ ((mapValues (MockupStorage.init 12345 0).dailyStats).getD 0 default).totalReceived
      ≤ ((mapValues (MockupStorage.init 12345 0).dailyStats).getD 0 default).totalSent :=
  dailyStats_pending_consistency 12345 0
    ((mapValues (MockupStorage.init 12345 0).dailyStats).getD 0 default)
    (by decide)

end

/-! ## RNG validity through generation (for C9) -/

/-- Constructor normalisation sends a positive seed to a valid state. -/
theorem seedNormalize_valid {seed : ℤ} (h : 1 ≤ seed) :
    rngValid (seedNormalize seed) := by
  simp only [seedNormalize, rngValid]
  have h0 : 0 ≤ Int.tmod seed 2147483647 := Int.tmod_nonneg _ (by omega)
  have h1 : Int.tmod seed 2147483647 < 2147483647 := Int.tmod_lt_of_pos _ (by norm_num)
  split <;> omega

/-- One customer-roster iteration (three `nextInt` draws) preserves state
validity. -/
theorem genCustomer_preserves_rngValid {acc : List (String × Customer) × ℤ}
    {i : ℕ} (h : rngValid acc.2) : rngValid (genCustomer acc i).2 := by
  simp only [genCustomer]
  exact rngNext_state_valid (rngNext_state_valid (rngNext_state_valid h))

/-- One generation day (one `nextInt` and one `next` draw) preserves state
validity. -/
theorem genDay_preserves_rngValid {today : ℤ} {acc : GenAcc} {i : ℕ}
    (h : rngValid acc.rng) : rngValid (genDay today acc i).rng := by
  simp only [genDay]
  exact rngNext_state_valid (rngNext_state_valid h)

/-- One generation day preserves the sent-batch `customerCount` range. -/
theorem genDay_preserves_sentCount {today : ℤ} {acc : GenAcc} {i : ℕ}
    (h : rngValid acc.rng) (hb : ∀ b ∈ mapValues acc.batches, sentCountOk b) :
    ∀ b ∈ mapValues (genDay today acc i).batches, sentCountOk b := by
  intro b hbm
  simp only [genDay] at hbm
  rcases mem_mapValues_mapSet hbm with rfl | hb1
  · intro ht
    simp at ht
  · rcases mem_mapValues_mapSet hb1 with rfl | hb2
    · intro _
      dsimp only
      have hm := @rngNextInt_mem acc.rng customersPerDayMin customersPerDayMax
        h (by norm_num [customersPerDayMin, customersPerDayMax])
      simpa [customersPerDayMin, customersPerDayMax] using hm
    · exact hb b hb2

/-- C9: for every valid state (in `[1, 2147483646]`) and every `min ≤ max`,
`nextInt(min, max)` lies in `[min, max]` inclusive; consequently (for any
positive seed, whose normalisation is valid and stays valid) every
generated `sent` batch has `customerCount` in the configured `[150, 200]`
range. -/
theorem nextInt_bounds_and_customerCount_range :
    (∀ s lo hi : ℤ, 1 ≤ s → s ≤ 2147483646 → lo ≤ hi →
      lo ≤ (rngNextInt s lo hi).1 ∧ (rngNextInt s lo hi).1 ≤ hi)
    ∧ (∀ seed today : ℤ, 1 ≤ seed →
        ∀ b ∈ mapValues (MockupStorage.init seed today).batches,
          b.type = .sent → 150 ≤ b.customerCount ∧ b.customerCount ≤ 200) := by
  constructor
  · intro s lo hi h1 h2 hlh
    exact rngNextInt_mem ⟨h1, h2⟩ hlh
  · intro seed today hseed b hb ht
    simp only [MockupStorage.init] at hb
    have hroster : rngValid ((List.range 100).foldl genCustomer ([], seedNormalize seed)).2 :=
      foldlInv (P := fun a : List (String × Customer) × ℤ => rngValid a.2) _ _
        (seedNormalize_valid hseed)
        (fun a i ha => genCustomer_preserves_rngValid ha)
    exact (foldlInv
      (P := fun acc : GenAcc => rngValid acc.rng ∧ ∀ x ∈ mapValues acc.batches, sentCountOk x)
      (List.range daysOfHistory) _
      ⟨hroster, fun x hx => by simp [mapValues] at hx⟩
      (fun acc i hacc =>
        ⟨genDay_preserves_rngValid hacc.1, genDay_preserves_sentCount hacc.1 hacc.2⟩)).2 b hb ht

/-- C8: the retention sweep mutates only the batch collection — the
daily-stats and customer collections are exactly unchanged, for every
argument and every prior store state. -/
theorem retention_frame (st : StorageState) (today days : ℤ) :
    (deleteBatchesOlderThan st today days).1.dailyStats = st.dailyStats
    ∧ (deleteBatchesOlderThan st today days).1.customers = st.customers :=
  ⟨rfl, rfl⟩

/-- C10: because defaults are applied with falsy coercion (`limit || 50`),
querying with an explicit limit of 0 behaves exactly like limit 50, for
every filter combination and store state. -/
theorem getBatches_limit_zero_default (st : StorageState) (f : BatchHistoryFilters) :
    getBatches st { f with limit := some 0 } = getBatches st { f with limit := some 50 } :=
  rfl

section

attribute [local semireducible] Rat.add Rat.mul Rat.sub Rat.inv

/-- Witness for C9 at state 12345 and the first generated `sent` batch. -/
theorem nextInt_bounds_and_customerCount_range_witness :
    (150 ≤ (rngNextInt 12345 150 200).1 ∧ (rngNextInt 12345 150 200).1 ≤ 200)
    ∧ (150 ≤ ((mapValues (MockupStorage.init 12345 0).batches).getD 0 default).customerCount
       ∧ ((mapValues (MockupStorage.init 12345 0).batches).getD 0 default).customerCount ≤ 200) :=
  ⟨nextInt_bounds_and_customerCount_range.1 12345 150 200 (by decide) (by decide) (by decide),
   nextInt_bounds_and_customerCount_range.2 12345 0 (by decide)
     ((mapValues (MockupStorage.init 12345 0).batches).getD 0 default)
     (by decide) (by decide)⟩

end

/-! ## Retention sweep lemmas (for C7) -/

/-- Erasing keys that avoid the head leaves the head in place. -/
theorem foldl_eraseKey_cons_notMem {K V : Type} [DecidableEq K]
    (ids : List K) (k : K) (v : V) (m : List (K × V)) (h : k ∉ ids) :
    ids.foldl (fun acc id => mapEraseKey acc id) ((k, v) :: m)
      = (k, v) :: ids.foldl (fun acc id => mapEraseKey acc id) m := by
  induction ids generalizing m with
  | nil => rfl
  | cons i is ih =>
    have hki : ¬ k = i := fun hk => h (hk ▸ List.mem_cons_self i is)
    simp only [List.foldl_cons]
    rw [show mapEraseKey ((k, v) :: m) i = (k, v) :: mapEraseKey m i from by
      simp [mapEraseKey, List.eraseP_cons, hki]]
    exact ih (mapEraseKey m i) (fun hm => h (List.mem_cons_of_mem i hm))

/-- With duplicate-free keys, deleting exactly the ids of the entries that
satisfy `p` leaves exactly the entries that do not. -/
theorem foldl_eraseKey_filter {K V : Type} [DecidableEq K]
    (m : List (K × V)) (p : K × V → Bool) (hnd : (m.map Prod.fst).Nodup) :
    ((m.filter p).map Prod.fst).foldl (fun acc id => mapEraseKey acc id) m
      = m.filter (fun x => !(p x)) := by
  induction m with
  | nil => rfl
  | cons kv m ih =>
    obtain ⟨k, v⟩ := kv
    simp only [List.map_cons, List.nodup_cons] at hnd
    obtain ⟨hk, hnd2⟩ := hnd
    by_cases hp : p (k, v) = true
    · rw [List.filter_cons_of_pos hp]
      simp only [List.map_cons, List.foldl_cons]
      rw [show mapEraseKey ((k, v) :: m) k = m from by
        simp [mapEraseKey, List.eraseP_cons]]
      rw [ih hnd2, List.filter_cons_of_neg (by simp [hp])]
    · rw [List.filter_cons_of_neg hp]
      have hnotin : k ∉ (m.filter p).map Prod.fst := by
        intro hmem
        obtain ⟨q, hq, he⟩ := List.mem_map.mp hmem
        exact hk (List.mem_map.mpr ⟨q, List.mem_of_mem_filter hq, he⟩)
      rw [foldl_eraseKey_cons_notMem _ _ _ _ hnotin, ih hnd2,
        List.filter_cons_of_pos (by simp [hp])]

/-- C7: for every non-negative retention window and every prior store state
with duplicate-free batch ids, after `deleteBatchesOlderThan(days)` no
remaining batch has `date < today - days`, and the returned count equals
the number of batches that satisfied that predicate beforehand. -/
theorem retention_postcondition (st : StorageState) (today days : ℤ)
    (hdays : 0 ≤ days) (hnd : (mapKeys st.batches).Nodup) :
    (∀ b ∈ mapValues (deleteBatchesOlderThan st today days).1.batches,
        ¬ b.date < today - days)
    ∧ (deleteBatchesOlderThan st today days).2
        = ((mapValues st.batches).filter (fun b => b.date < today - days)).length := by
  have hnd2 : (st.batches.map Prod.fst).Nodup := hnd
  constructor
  · intro b hb
    simp only [deleteBatchesOlderThan] at hb
    rw [foldl_eraseKey_filter st.batches _ hnd2] at hb
    simp only [mapValues, List.mem_map] at hb
    obtain ⟨q, hq, he⟩ := hb
    have hqp := (List.mem_filter.mp hq).2
    rw [← he]
    simpa using hqp
  · simp only [deleteBatchesOlderThan, mapValues]
    rw [List.length_map, List.filter_map, List.length_map]
    rfl

section

attribute [local semireducible] Rat.add Rat.mul Rat.sub Rat.inv

/-- Witness for C7 on a concrete two-batch store with cutoff day 3. -/
theorem retention_postcondition_witness :
    (deleteBatchesOlderThan stRetention 10 7).2
      = ((mapValues stRetention.batches).filter (fun b => b.date < 10 - 7)).length :=
  (retention_postcondition stRetention 10 7 (by decide) (by decide)).2

end

/-! ## Ascending key sort and the maximum (for C5) -/

/-- `insertIntAsc` builds a permutation of consing. -/
theorem insertIntAsc_perm (x : ℤ) (l : List ℤ) : List.Perm (insertIntAsc x l) (x :: l) := by
  induction l with
  | nil => exact List.Perm.refl _
  | cons y ys ih =>
    unfold insertIntAsc
    split
    · exact List.Perm.refl _
    · exact (ih.cons y).trans (List.Perm.swap x y ys)

/-- Folding `insertIntAsc` over a list permutes the concatenation. -/
theorem foldl_insertIntAsc_perm (l : List ℤ) :
    ∀ acc : List ℤ, List.Perm (l.foldl (fun a x => insertIntAsc x a) acc) (acc ++ l) := by
  induction l with
  | nil => intro acc; simp
  | cons x xs ih =>
    intro acc
    simp only [List.foldl_cons]
    exact ((ih (insertIntAsc x acc)).trans
      (((insertIntAsc_perm x acc).append_right xs).trans List.perm_middle.symm))

/-- The key sort is a permutation of its input. -/
theorem sortIntAsc_perm (l : List ℤ) : List.Perm (sortIntAsc l) l := by
  have h := foldl_insertIntAsc_perm l []
  simpa [sortIntAsc] using h

/-- `insertIntAsc` preserves ascending sortedness. -/
theorem sorted_insertIntAsc {x : ℤ} {l : List ℤ} (h : l.Sorted (· ≤ ·)) :
    (insertIntAsc x l).Sorted (· ≤ ·) := by
  induction l with
  | nil => simp [insertIntAsc]
  | cons y ys ih =>
    rw [List.sorted_cons] at h
    obtain ⟨hy, hys⟩ := h
    unfold insertIntAsc
    split
    · rename_i hxy
      rw [List.sorted_cons]
      refine ⟨fun b hb => ?_, by rw [List.sorted_cons]; exact ⟨hy, hys⟩⟩
      rcases List.mem_cons.mp hb with rfl | hb2
      · omega
      · have := hy b hb2
        omega
    · rename_i hxy
      rw [List.sorted_cons]
      refine ⟨fun b hb => ?_, ih hys⟩
      rcases List.mem_cons.mp ((insertIntAsc_perm x ys).mem_iff.mp hb) with rfl | hb2
      · omega
      · exact hy b hb2

/-- The key sort is ascending. -/
theorem sortIntAsc_sorted (l : List ℤ) : (sortIntAsc l).Sorted (· ≤ ·) :=
  foldlInv l [] (by simp) (fun a x ha => sorted_insertIntAsc ha)

/-- In an ascending list every element is at most the last. -/
theorem sorted_le_getLast :
    ∀ (l : List ℤ), l.Sorted (· ≤ ·) → ∀ (hne : l ≠ []) (b : ℤ), b ∈ l →
      b ≤ l.getLast hne := by
  intro l
  induction l with
  | nil => intro _ hne; exact absurd rfl hne
  | cons x xs ih =>
    intro h hne b hb
    rw [List.sorted_cons] at h
    by_cases hxs : xs = []
    · subst hxs
      simp only [List.mem_singleton] at hb
      subst hb
      simp [List.getLast]
    · rw [List.getLast_cons hxs]
      rcases List.mem_cons.mp hb with rfl | hb2
      · exact h.1 _ (List.getLast_mem hxs)
      · exact ih h.2 hxs b hb2

/-- `sort().reverse()[0]` on the key array is the maximum key. -/
theorem max?_sortIntAsc (l : List ℤ) : (sortIntAsc l).reverse.head? = l.max? := by
  rw [List.head?_reverse]
  rcases eq_or_ne (sortIntAsc l) [] with hnil | hne
  · have hl : l = [] := ((sortIntAsc_perm l).symm.trans (hnil ▸ List.Perm.refl _)).eq_nil
    rw [hnil, hl]
    rfl
  · rw [List.getLast?_eq_getLast _ hne]
    symm
    haveI : Std.Antisymm ((· : ℤ) ≤ ·) := ⟨fun h h2 => le_antisymm h h2⟩
    apply (List.max?_eq_some_iff (fun a => le_refl a) (fun a b => max_choice a b)
      (fun a b c => max_le_iff)).mpr
    refine ⟨(sortIntAsc_perm l).mem_iff.mp (List.getLast_mem hne), fun b hb => ?_⟩
    exact sorted_le_getLast _ (sortIntAsc_sorted l) hne b ((sortIntAsc_perm l).mem_iff.mpr hb)

/-- C5 (amended): `getDashboardMetrics` agrees with the spec's description
with the rounding step removed — it returns today's stats when present,
falls back to the stats at the maximum available date, returns a
zero-filled object dated today on an empty store, and computes
`responseRate` as the raw quotient `totalReceived / totalSent * 100` when
`totalSent > 0` (no rounding), else `0`. -/
theorem getDashboardMetrics_no_rounding (st : StorageState) (today : ℤ) :
    getDashboardMetrics st today = dashboardMetricsSpec st today := by
  cases hf : mapGet st.dailyStats today with
  | some s => simp [getDashboardMetrics, dashboardMetricsSpec, hf, metricsOfStats]
  | none =>
    simp only [getDashboardMetrics, dashboardMetricsSpec, hf]
    rw [max?_sortIntAsc]
    cases hm : (mapKeys st.dailyStats).max? with
    | none => rfl
    | some d =>
      cases hg : mapGet st.dailyStats d with
      | none => rfl
      | some s => simp [metricsOfStats]

/-! ## Chart data (for C6) -/

/-- A chart point carries the day it was generated for. -/
theorem chartPoint_date (st : StorageState) (d : ℤ) : (chartPoint st d).date = d := by
  cases hm : mapGet st.dailyStats d <;> simp [chartPoint, hm]

/-- C6 counterexample: at `days = -1` the loop body never runs, so
`getChartData` returns 0 entries, not `-1` entries as the claim's "every
integer `days`" reading would require. -/
theorem getChartData_negative_days_counterexample :
    ¬ (((getChartData (MockupStorage.init 12345 0) 0 (-1)).length : ℤ) = -1) := by
  decide

/-- C6 (amended): for every non-negative `days`, `getChartData(days)`
returns exactly `days` entries, in strictly ascending date order, the
`k`-th entry being the day `today - (days - 1 - k)`, with `sent` and
`received` zero whenever that day has no daily-stats record. -/
theorem getChartData_complete_nonneg (st : StorageState) (today days : ℤ)
    (hd : 0 ≤ days) :
    (((getChartData st today days).length : ℤ) = days)
    ∧ List.Pairwise (fun a b : ChartEntry => a.date < b.date) (getChartData st today days)
    ∧ ∀ (k : ℕ) (hk : k < (getChartData st today days).length),
        ((getChartData st today days).get ⟨k, hk⟩).date = today - (days - 1 - (k : ℤ))
        ∧ (mapGet st.dailyStats (today - (days - 1 - (k : ℤ))) = none →
            ((getChartData st today days).get ⟨k, hk⟩).sent = 0
            ∧ ((getChartData st today days).get ⟨k, hk⟩).received = 0) := by
  refine ⟨?_, ?_, ?_⟩
  · have hlen : (getChartData st today days).length = days.toNat := by
      rw [getChartData, List.length_map, List.length_range]
    rw [hlen, Int.toNat_of_nonneg hd]
  · rw [getChartData]
    refine List.Pairwise.map _ (fun a b hab => ?_) (List.pairwise_lt_range _)
    rw [chartPoint_date, chartPoint_date]
    omega
  · intro k hk
    have hget : (getChartData st today days).get ⟨k, hk⟩
        = chartPoint st (today - (days - 1 - (k : ℤ))) := by
      rw [List.get_eq_getElem]
      simp only [getChartData, List.getElem_map, List.getElem_range]
    constructor
    · rw [hget, chartPoint_date]
    · intro hnone
      rw [hget]
      simp [chartPoint, hnone]

section

attribute [local semireducible] Rat.add Rat.mul Rat.sub Rat.inv

/-- C5 counterexample: on a store whose only (and hence latest) stats read
1 received of 3 sent, the computed `responseRate` is the unrounded
`100/3`, which is not the claimed `round(1/3 * 100)`. -/
theorem getDashboardMetrics_round_counterexample :
    (getDashboardMetrics stDash 0).responseRate
      ≠ ((round ((((getDashboardMetrics stDash 0).totalReceived : ℚ)
          / ((getDashboardMetrics stDash 0).totalSent : ℚ)) * 100) : ℤ) : ℚ) := by
  decide

/-- Witness for the amended C6 on a concrete store and `days = 3`. -/
theorem getChartData_complete_nonneg_witness :
    (((getChartData stDash 0 3).length : ℤ) = 3)
    ∧ List.Pairwise (fun a b : ChartEntry => a.date < b.date) (getChartData stDash 0 3) :=
  ⟨(getChartData_complete_nonneg stDash 0 3 (by decide)).1,
   (getChartData_complete_nonneg stDash 0 3 (by decide)).2.1⟩

end

/-! ## Pagination lemmas (for C4) -/

/-- `x || d` on a present value with default `0` is the value itself. -/
theorem jsOrNum_some_zero (x : ℤ) : jsOrNum (some x) 0 = x := by
  simp only [jsOrNum]
  split <;> omega

/-- `x || d` on a present non-zero value is the value itself. -/
theorem jsOrNum_some_ne_zero {x : ℤ} (h : x ≠ 0) (d : ℤ) : jsOrNum (some x) d = x := by
  simp only [jsOrNum]
  rw [if_neg h]

/-- `slice(a, a + b)` for non-negative bounds is drop-then-take. -/
theorem jsSlice_of_nonneg {α : Type} (xs : List α) (a b : ℤ) (ha : 0 ≤ a)
    (hb : 0 ≤ b) : jsSlice xs a (a + b) = (xs.drop a.toNat).take b.toNat := by
  have hnb : ¬ a < 0 := not_lt.mpr ha
  have hnab : ¬ a + b < 0 := by omega
  simp only [jsSlice, if_neg hnb, if_neg hnab]
  rcases le_or_lt a (xs.length : ℤ) with hle | hgt
  · rw [min_eq_left hle]
    rw [List.take_eq_take]
    simp only [List.length_drop]
    omega
  · have h2 : xs.drop a.toNat = [] := List.drop_eq_nil_of_le (by omega)
    rw [min_eq_right hgt.le]
    simp [h2]

/-- Inserting into the descending sort adds one to the length. -/
theorem length_insertBatchDesc (x : Batch) (l : List Batch) :
    (insertBatchDesc x l).length = l.length + 1 := by
  induction l with
  | nil => rfl
  | cons y ys ih =>
    unfold insertBatchDesc
    split
    · simp
    · simp [ih]

/-- The descending sort preserves length. -/
theorem length_sortBatchesDesc (l : List Batch) :
    (sortBatchesDesc l).length = l.length := by
  suffices h : ∀ acc : List Batch,
      ((l.foldl (fun a x => insertBatchDesc x a) acc).length) = acc.length + l.length by
    simpa [sortBatchesDesc] using h []
  induction l with
  | nil => intro acc; simp
  | cons x xs ih =>
    intro acc
    simp only [List.foldl_cons]
    rw [ih (insertBatchDesc x acc), length_insertBatchDesc, List.length_cons]
    omega

/-- Membership through the descending insert. -/
theorem mem_insertBatchDesc {x b : Batch} {l : List Batch}
    (hb : b ∈ insertBatchDesc x l) : b = x ∨ b ∈ l := by
  induction l with
  | nil => simpa [insertBatchDesc] using hb
  | cons y ys ih =>
    unfold insertBatchDesc at hb
    split at hb
    · rcases List.mem_cons.mp hb with rfl | h2
      · exact Or.inl rfl
      · exact Or.inr h2
    · rcases List.mem_cons.mp hb with rfl | h2
      · exact Or.inr (List.mem_cons_self _ _)
      · rcases ih h2 with h3 | h3
        · exact Or.inl h3
        · exact Or.inr (List.mem_cons_of_mem _ h3)

/-- The descending insert preserves descending sortedness. -/
theorem sorted_insertBatchDesc {x : Batch} {l : List Batch}
    (h : l.Sorted (fun a b => b.date ≤ a.date)) :
    (insertBatchDesc x l).Sorted (fun a b => b.date ≤ a.date) := by
  induction l with
  | nil => simp [insertBatchDesc]
  | cons y ys ih =>
    rw [List.sorted_cons] at h
    obtain ⟨hy, hys⟩ := h
    unfold insertBatchDesc
    split
    · rename_i hxy
      rw [List.sorted_cons]
      refine ⟨fun b hb => ?_, by rw [List.sorted_cons]; exact ⟨hy, hys⟩⟩
      rcases List.mem_cons.mp hb with rfl | hb2
      · omega
      · have := hy b hb2
        omega
    · rename_i hxy
      rw [List.sorted_cons]
      refine ⟨fun b hb => ?_, ih hys⟩
      rcases mem_insertBatchDesc hb with rfl | hb2
      · omega
      · exact hy b hb2

/-- The batch sort is descending by date. -/
theorem sortBatchesDesc_sorted (l : List Batch) :
    (sortBatchesDesc l).Sorted (fun a b => b.date ≤ a.date) :=
  foldlInv l [] (by simp) (fun a x ha => sorted_insertBatchDesc ha)

/-- Concatenating the `l`-sized chunks of a list reconstructs it. -/
theorem flatten_take_drop_chunks {α : Type} (l : ℕ) :
    ∀ (n : ℕ) (xs : List α), xs.length ≤ n * l →
      ((List.range n).map (fun k => (xs.drop (k * l)).take l)).flatten = xs := by
  intro n
  induction n with
  | zero =>
    intro xs h
    simp only [Nat.zero_mul, Nat.le_zero, List.length_eq_zero] at h
    subst h
    rfl
  | succ n ih =>
    intro xs h
    rw [List.range_succ_eq_map]
    simp only [List.map_cons, List.flatten_cons, Nat.zero_mul, List.drop_zero,
      List.map_map]
    have hfe : ((fun k => (xs.drop (k * l)).take l) ∘ Nat.succ)
        = fun k => ((xs.drop l).drop (k * l)).take l := by
      funext k
      simp only [Function.comp]
      rw [List.drop_drop, Nat.succ_mul, Nat.add_comm]
    rw [hfe]
    rw [Nat.succ_mul] at h
    rw [ih (xs.drop l) (by simp only [List.length_drop]; omega)]
    exact List.take_append_drop l xs

/-- One page of `getBatches` is a drop-take window of the enriched full
filtered sorted listing. -/
theorem getBatches_page (st : StorageState) (f : BatchHistoryFilters)
    (limit : ℤ) (hl : 0 < limit) (off : ℤ) (ho : 0 ≤ off) :
    (getBatches st { f with limit := some limit, offset := some off }).batches
      = (((filteredSortedBatches st f).map addSummary).drop off.toNat).take limit.toNat := by
  simp only [getBatches]
  rw [jsOrNum_some_zero, jsOrNum_some_ne_zero (by omega)]
  rw [jsSlice_of_nonneg _ _ _ ho hl.le]
  rw [List.map_take, List.map_drop]
  rfl

/-- C4: `total` equals the size of the full filtered set for every
`limit`/`offset`; the full filtered sorted listing is descending by date;
stepping `offset` by `limit` and concatenating the pages reconstructs the
enriched full listing exactly once each; an `offset` at or beyond the
filtered-set size yields an empty page (with the same unchanged `total` by
the first part). -/
theorem getBatches_pagination_correct (st : StorageState) (f : BatchHistoryFilters)
    (limit offset : ℤ) (hl : 0 < limit) (ho : 0 ≤ offset) :
    ((getBatches st { f with limit := some limit, offset := some offset }).total
      = ((applyDateFilters f.dateFrom f.dateTo
          (applyTypeFilter f.type (mapValues st.batches))).length : ℤ))
    ∧ (filteredSortedBatches st f).Sorted (fun a b => b.date ≤ a.date)
    ∧ (∀ n : ℕ, (filteredSortedBatches st f).length ≤ n * limit.toNat →
        ((List.range n).map (fun (k : ℕ) =>
          (getBatches st
            { f with limit := some limit, offset := some ((k : ℤ) * limit) }).batches)).flatten
          = (filteredSortedBatches st f).map addSummary)
    ∧ (((filteredSortedBatches st f).length : ℤ) ≤ offset →
        (getBatches st { f with limit := some limit, offset := some offset }).batches = []) := by
  refine ⟨?_, sortBatchesDesc_sorted _, ?_, ?_⟩
  · simp only [getBatches, filteredSortedBatches]
    rw [length_sortBatchesDesc]
  · intro n hn
    have hpages : ∀ k : ℕ,
        (getBatches st
          { f with limit := some limit, offset := some ((k : ℤ) * limit) }).batches
        = (((filteredSortedBatches st f).map addSummary).drop (k * limit.toNat)).take
            limit.toNat := by
      intro k
      rw [getBatches_page st f limit hl _ (mul_nonneg (Int.natCast_nonneg k) hl.le)]
      have he : ((k : ℤ) * limit).toNat = k * limit.toNat := by
        have h1 : ((k : ℤ) * limit) = ((k * limit.toNat : ℕ) : ℤ) := by
          push_cast
          rw [Int.toNat_of_nonneg hl.le]
        rw [h1, Int.toNat_natCast]
      rw [he]
    rw [show (fun k : ℕ => (getBatches st
        { f with limit := some limit, offset := some ((k : ℤ) * limit) }).batches)
        = fun k : ℕ => (((filteredSortedBatches st f).map addSummary).drop
            (k * limit.toNat)).take limit.toNat from funext hpages]
    exact flatten_take_drop_chunks limit.toNat n _ (by rw [List.length_map]; exact hn)
  · intro hbig
    rw [getBatches_page st f limit hl offset ho]
    have h2 : ((filteredSortedBatches st f).map addSummary).drop offset.toNat = [] :=
      List.drop_eq_nil_of_le (by rw [List.length_map]; omega)
    simp [h2]

section

attribute [local semireducible] Rat.add Rat.mul Rat.sub Rat.inv

/-- Witness for C4 on a concrete two-batch store: `total` counts the full
filtered set with `limit = 1`, `offset = 5`, and the out-of-range offset
yields an empty page. -/
theorem getBatches_pagination_correct_witness :
    ((getBatches stRetention { limit := some 1, offset := some 5 }).total
      = ((applyDateFilters none none
          (applyTypeFilter none (mapValues stRetention.batches))).length : ℤ))
    ∧ (getBatches stRetention { limit := some 1, offset := some 5 }).batches = [] :=
  ⟨(getBatches_pagination_correct stRetention {} 1 5 (by decide) (by decide)).1,
   (getBatches_pagination_correct stRetention {} 1 5 (by decide) (by decide)).2.2.2
     (by decide)⟩

end
end LineDash
